import Mathlib

/-!
Verification development for the mistral-code orchestration core.

The definitions below are a shallow embedding of the TypeScript source:
the tool executor (`executeTool` in commands.ts / tools.ts) and the
command/tool-loop module (`processCommand`).  JavaScript strings are
modelled as Lean `String`, the filesystem as an association list from
resolved path to content, process spawns as a log of commands, the
completion boundary and `JSON.parse` as environment functions, and
JavaScript exceptions as an `Except` monad over a `JsError` record.
-/

namespace MC

/-! ### JavaScript string primitives -/

/-- ASCII whitespace, as used by `String.prototype.trim`. -/
def isWsChar (c : Char) : Bool :=
  c = ' ' || c = '\t' || c = '\n' || c = '\r' || c = Char.ofNat 12 || c = Char.ofNat 11

/-- Embedding of `s.trim()`: strip leading and trailing whitespace. -/
def strTrim (s : String) : String :=
  ⟨((s.data.dropWhile isWsChar).reverse.dropWhile isWsChar).reverse⟩

/-- Embedding of `s.startsWith(pat)`. -/
def strStartsWith (s pat : String) : Bool :=
  pat.data.isPrefixOf s.data

/-- Embedding of `s.slice(n)`: drop the first `n` characters. -/
def strDrop (s : String) (n : Nat) : String :=
  ⟨s.data.drop n⟩

/-- Embedding of `c` lower-cased (ASCII fragment of `toLowerCase`). -/
def jsToLowerChar (c : Char) : Char :=
  if 'A' ≤ c ∧ c ≤ 'Z' then Char.ofNat (c.toNat + 32) else c

/-- Embedding of `s.toLowerCase()` (ASCII fragment). -/
def strToLower (s : String) : String :=
  ⟨s.data.map jsToLowerChar⟩

/-- Embedding of `o || d` for an optional string: `undefined` and `""` are falsy. -/
def jsOr (o : Option String) (d : String) : String :=
  match o with
  | some s => if s = "" then d else s
  | none => d

/-- Truthiness of an optional string (`undefined` and `""` are falsy). -/
def idTruthy (o : Option String) : Bool :=
  match o with
  | some s => decide (s ≠ "")
  | none => false

/-- JavaScript `ToString` coercion applied to a possibly-undefined string. -/
def jsUndefOr (o : Option String) : String :=
  match o with
  | some s => s
  | none => "undefined"

/-- Position of the first occurrence of `pat` in `s` (JS `indexOf`). -/
def firstMatchPos (pat : List Char) : List Char → Option Nat
  | [] => if pat.isPrefixOf ([] : List Char) then some 0 else none
  | c :: cs =>
    if pat.isPrefixOf (c :: cs) then some 0
    else (firstMatchPos pat cs).map (· + 1)

/-- Embedding of `s.includes(pat)`. -/
def strIncludes (s pat : String) : Bool :=
  (firstMatchPos pat.data s.data).isSome

/-- The dollar character used by JS replacement patterns. -/
def dollarChar : Char := '$'

/-- ECMAScript `GetSubstitution` for a string search value: expand the
replacement patterns `$$` (a dollar), `$&` (the matched string), a dollar
followed by a backquote (the text before the match) and a dollar followed
by an apostrophe (the text after the match); any other dollar is literal. -/
def substDollar (matched before after : List Char) : List Char → List Char
  | [] => []
  | [c] => [c]
  | c :: d :: rest2 =>
    if c = dollarChar then
      if d = dollarChar then dollarChar :: substDollar matched before after rest2
      else if d = '&' then matched ++ substDollar matched before after rest2
      else if d = Char.ofNat 96 then before ++ substDollar matched before after rest2
      else if d = Char.ofNat 39 then after ++ substDollar matched before after rest2
      else c :: substDollar matched before after (d :: rest2)
    else c :: substDollar matched before after (d :: rest2)

/-- Embedding of `s.replace(pat, rep)` with string arguments: replace the
first occurrence of `pat`, expanding JS replacement patterns in `rep`. -/
def jsReplaceList (s pat rep : List Char) : List Char :=
  match firstMatchPos pat s with
  | none => s
  | some i =>
    let before := s.take i
    let after := s.drop (i + pat.length)
    before ++ substDollar pat before after rep ++ after

/-- `String` wrapper for `jsReplaceList`. -/
def jsReplaceFirst (s pat rep : String) : String :=
  ⟨jsReplaceList s.data pat.data rep.data⟩

/-! ### Data model -/

/-- Role of a turn stored in the persistent conversation history. -/
inductive Role
  | user
  | assistant
  | tool
deriving DecidableEq, Repr

/-- A normalized tool call as stored on an assistant message
(`{id, type, function: {name, arguments}}` with `arguments` a string). -/
structure NormToolCall where
  id : String
  type : String
  name : String
  arguments : String
deriving DecidableEq, Repr

/-- One entry of `conversationHistory` (`ConversationMessage` in the source). -/
structure ConvMessage where
  role : Role
  content : String
  toolCallId : Option String := none
  toolCalls : Option (List NormToolCall) := none
deriving DecidableEq, Repr

/-- One typed content segment of a completion response. -/
inductive Chunk
  | text (s : String)
  | other
deriving DecidableEq, Repr

/-- Content of a completion response message: a plain string, a sequence of
typed segments, or null/undefined. -/
inductive RespContent
  | str (s : String)
  | chunks (cs : List Chunk)
  | null
deriving DecidableEq, Repr

/-- One entry of the per-exchange outbound `messages` array (`ChatMessage`).
The `role` field is a string because the source builds these as plain
objects; content is a string except for assistant entries echoing a
structured response content. -/
structure ChatMsg where
  role : String
  content : RespContent
  toolCallId : Option String := none
  toolCalls : Option (List NormToolCall) := none
deriving DecidableEq, Repr

/-- Argument payload of a requested tool call as delivered by the completion
boundary: either already a string or a structured value (carried here by its
`JSON.stringify` image). -/
inductive ArgPayload
  | str (s : String)
  | obj (json : String)
deriving DecidableEq, Repr

/-- The string form of an argument payload
(`typeof a === "string" ? a : JSON.stringify(a)`). -/
def ArgPayload.asString : ArgPayload → String
  | .str s => s
  | .obj j => j

/-- A tool call requested by the completion response (`id` and `type` may be
absent). -/
structure RespToolCall where
  id : Option String := none
  type : Option String := none
  name : String
  arguments : ArgPayload
deriving DecidableEq, Repr

/-- The message of one completion choice. -/
structure RespMessage where
  content : RespContent
  toolCalls : Option (List RespToolCall) := none
deriving DecidableEq, Repr

/-- A JavaScript error value as observed by the catch sites of the source
(`message`, and for `exec` failures the captured `stdout`/`stderr` and exit
`code`; absent streams are collapsed to `""`, which is equally falsy). -/
structure JsError where
  message : String
  stdout : String := ""
  stderr : String := ""
  code : Option Int := none
deriving DecidableEq, Repr

/-- Outcome of one call to the completion boundary: the awaited promise
either throws or yields a list of choices. -/
inductive CompletionStep
  | throws (e : JsError)
  | result (choices : List RespMessage)
deriving Repr

/-- The raw object produced by `JSON.parse` of a tool's arguments, read
through the unchecked casts of the source: every schema field is optional. -/
structure GenArgs where
  file_path : Option String := none
  directory_path : Option String := none
  old_str : Option String := none
  new_str : Option String := none
  command : Option String := none
  working_directory : Option String := none
deriving DecidableEq, Repr

/-- Outcome of `execAsync`: resolves with captured streams, or rejects with
an error carrying the streams and exit code. -/
inductive ExecOutcome
  | ok (stdout stderr : String)
  | fail (e : JsError)
deriving Repr

/-- The external environment of one exchange: the completion boundary
(indexed by the 1-based iteration counter), `JSON.parse` (`none` models a
throw), and the shell collaborator. -/
structure Env where
  complete : Nat → CompletionStep
  parse : String → Option GenArgs
  exec : String → String → ExecOutcome

/-- The closed enumeration of capability names. -/
inductive ToolName
  | read_file
  | list_directory
  | edit_file
  | run_command
deriving DecidableEq, Repr

/-- The dispatch chain of the source: map a function name to a capability. -/
def toolNameOf (s : String) : Option ToolName :=
  if s = "read_file" then some .read_file
  else if s = "list_directory" then some .list_directory
  else if s = "edit_file" then some .edit_file
  else if s = "run_command" then some .run_command
  else none

/-- Embedding of `isToolName` from tools.ts. -/
def isToolName (s : String) : Bool :=
  s == "read_file" || s == "list_directory" || s == "edit_file" || s == "run_command"

/-- The advertised tool set: read-only tools in plan mode, all four
otherwise (`availableTools` in the source). -/
def availableTools (isPlanMode : Bool) : List ToolName :=
  if isPlanMode then [.read_file, .list_directory]
  else [.read_file, .list_directory, .edit_file, .run_command]

/-- Kind of a directory entry as seen through `withFileTypes`. -/
inductive EntryKind
  | dir
  | file
  | other
deriving DecidableEq, Repr

/-- One directory entry. -/
structure DirEntry where
  name : String
  kind : EntryKind
deriving DecidableEq, Repr

/-- The modelled machine state: working directory, files (resolved path to
content, later bindings shadow earlier ones), directories, and the log of
spawned shell commands. -/
structure Sys where
  cwd : String
  files : List (String × String)
  dirs : List (String × List DirEntry)
  spawns : List String
deriving DecidableEq, Repr

/-- First-match association-list lookup. -/
def lookupStr {α : Type} (l : List (String × α)) (k : String) : Option α :=
  match l with
  | [] => none
  | (k', v) :: rest => if k' = k then some v else lookupStr rest k

/-- The JavaScript exception monad. -/
abbrev JsM (α : Type) := Except JsError α

/-- Embedding of `path.isAbsolute`. -/
def isAbsolutePath (p : String) : Bool := strStartsWith p "/"

/-- Embedding of `isAbsolute ? p : resolve(cwd, p)` (modelled as a plain
join; `..`/`.` normalization is not needed by any claim). -/
def resolvePath (cwd p : String) : String :=
  if isAbsolutePath p then p else cwd ++ "/" ++ p

/-! ### Capability executor (`executeTool` of tools.ts) -/

/-- The TypeError thrown by Node path functions on an undefined path. -/
def pathTypeError : JsError :=
  { message := "The \"path\" argument must be of type string. Received undefined" }

/-- The TypeError thrown by `fs.writeFile` on undefined data. -/
def dataTypeError : JsError :=
  { message := "The \"data\" argument must be of type string. Received undefined" }

/-- The ENOENT error raised by `fs.readFile` on a missing file. -/
def enoentOpen (p : String) : JsError :=
  { message := "ENOENT: no such file or directory, open '" ++ p ++ "'" }

/-- The ENOENT error raised by `fs.readdir` on a missing directory. -/
def enoentScandir (p : String) : JsError :=
  { message := "ENOENT: no such file or directory, scandir '" ++ p ++ "'" }

/-- `fs.readFile` over the modelled filesystem. -/
def fsReadFile (sys : Sys) (p : String) : JsM String :=
  match lookupStr sys.files p with
  | some c => .ok c
  | none => .error (enoentOpen p)

/-- `fs.writeFile` over the modelled filesystem. -/
def fsWriteFile (sys : Sys) (p content : String) : Sys :=
  { sys with files := (p, content) :: sys.files }

/-- The `old_str`-not-found result of `edit_file`. -/
def oldStrNotFoundMsg : String :=
  "Error: The specified old_str was not found in the file. Make sure to include the exact string including whitespace and newlines."

/-- One rendered line of `list_directory` output. -/
def dirEntryLine (sys : Sys) (rp : String) (e : DirEntry) : String :=
  let size :=
    if e.kind = .file then
      match lookupStr sys.files (rp ++ "/" ++ e.name) with
      | some c => " (" ++ toString c.length ++ " bytes)"
      | none => ""
    else ""
  (if e.kind = .dir then "üìÅ " else "üìÑ ") ++ e.name ++ size

/-- The try/catch of each capability branch: a thrown error is converted to
the branch's descriptive text result, with the entry state (no branch
mutates state before its last possible throw). -/
def jsTryS (sys : Sys) (handler : JsError → String) (body : JsM (Sys × String)) :
    JsM (Sys × String) :=
  match body with
  | .ok r => .ok r
  | .error e => .ok (sys, handler e)

/-- The working directory used by `run_command`. -/
def workingDirOf (sys : Sys) (args : GenArgs) : String :=
  match args.working_directory with
  | some w => if w = "" then sys.cwd else resolvePath sys.cwd w
  | none => sys.cwd

/-- Embedding of `executeTool`: dispatch on the capability name, perform the
effect on the modelled state and return a textual result; every underlying
fault is caught at this boundary. -/
def executeTool (env : Env) (tn : ToolName) (args : GenArgs) (sys : Sys) :
    JsM (Sys × String) :=
  match tn with
  | .read_file =>
    jsTryS sys (fun e => "Error reading file: " ++ e.message)
      (match args.file_path with
       | none => .error pathTypeError
       | some fp =>
         match fsReadFile sys (resolvePath sys.cwd fp) with
         | .error e => .error e
         | .ok content => .ok (sys, content))
  | .list_directory =>
    jsTryS sys (fun e => "Error listing directory: " ++ e.message)
      (match lookupStr sys.dirs (resolvePath sys.cwd (jsOr args.directory_path ".")) with
       | none => .error (enoentScandir (resolvePath sys.cwd (jsOr args.directory_path ".")))
       | some entries =>
         .ok (sys, String.intercalate "\n"
           (entries.map (dirEntryLine sys (resolvePath sys.cwd (jsOr args.directory_path "."))))))
  | .edit_file =>
    jsTryS sys (fun e => "Error editing file: " ++ e.message)
      (match args.file_path with
       | none => .error pathTypeError
       | some fp =>
         if args.old_str = some "" then
           match args.new_str with
           | none => .error dataTypeError
           | some ns =>
             .ok (fsWriteFile sys (resolvePath sys.cwd fp) ns,
                  "File created successfully: " ++ fp)
         else
           match fsReadFile sys (resolvePath sys.cwd fp) with
           | .error e => .error e
           | .ok content =>
             if strIncludes content (jsUndefOr args.old_str) = false then
               .ok (sys, oldStrNotFoundMsg)
             else
               .ok (fsWriteFile sys (resolvePath sys.cwd fp)
                      (jsReplaceFirst content (jsUndefOr args.old_str) (jsUndefOr args.new_str)),
                    "File edited successfully: " ++ fp))
  | .run_command =>
    match args.command with
    | none =>
      .ok (sys, "Error executing command: The \"command\" argument must be of type string. Received undefined")
    | some cmd =>
      match env.exec cmd (workingDirOf sys args) with
      | .ok stdout stderr =>
        if strTrim (stdout ++ stderr) = "" then
          .ok ({ sys with spawns := sys.spawns ++ [cmd] },
               "Command executed successfully (no output)")
        else
          .ok ({ sys with spawns := sys.spawns ++ [cmd] }, strTrim (stdout ++ stderr))
      | .fail e =>
        if e.stdout ≠ "" ∨ e.stderr ≠ "" then
          match e.code with
          | some c =>
            .ok ({ sys with spawns := sys.spawns ++ [cmd] },
                 "Command failed with exit code " ++ toString c ++ ":\n" ++
                   strTrim (e.stdout ++ e.stderr))
          | none =>
            .ok ({ sys with spawns := sys.spawns ++ [cmd] },
                 if strTrim (e.stdout ++ e.stderr) ≠ "" then strTrim (e.stdout ++ e.stderr)
                 else "Command failed: " ++ e.message)
        else
          .ok ({ sys with spawns := sys.spawns ++ [cmd] },
               "Error executing command: " ++ e.message)

/-! ### Orchestration loop (`processCommand` of the consolidated module) -/

/-- The suffix appended to the system prompt while plan mode is active. -/
def planModeSuffix : String :=
  "\n\n[PLAN MODE ACTIVE] You are currently in PLAN MODE. This means:\n- You MUST NOT make any changes to files (do not use edit_file tool)\n- You MUST NOT execute any commands (do not use run_command tool)\n- You CAN read files (read_file) and list directories (list_directory) to understand the codebase\n- Your goal is to create a detailed, step-by-step plan for the user\n- Present the plan clearly with numbered steps\n- Wait for user approval before implementing anything\n- If the user suggests changes to the plan, update the plan accordingly"

/-- The refusal tool-result content appended for a mutating capability
requested while plan mode is active. -/
def refusalContent (name : String) : String :=
  "Error: Cannot use " ++ name ++ " in plan mode. Plan mode only allows reading files and listing directories. Use '/approve' to exit plan mode and start implementation."

/-- The SyntaxError thrown by `JSON.parse` on an unparseable payload. -/
def jsonParseError (s : String) : JsError :=
  { message := "Unexpected token in JSON: " ++ s }

/-- Normalization of a history entry into the outbound message shape. -/
def roleOf : Role → String
  | .user => "user"
  | .assistant => "assistant"
  | .tool => "tool"

/-- The per-entry normalization of history into `messages`: a tool turn with
a truthy `toolCallId` becomes a tool-role entry; an entry carrying tool
calls becomes an assistant entry re-serializing each call's arguments (the
stored arguments are already strings, so that map is the identity here);
everything else passes through with its role and content. -/
def normalizeMsg (m : ConvMessage) : ChatMsg :=
  if m.role = .tool ∧ idTruthy m.toolCallId = true then
    { role := "tool", content := .str m.content, toolCallId := m.toolCallId }
  else
    match m.toolCalls with
    | some (tc :: tcs) =>
      { role := "assistant", content := .str m.content, toolCalls := some (tc :: tcs) }
    | _ => { role := roleOf m.role, content := .str m.content }

/-- `message.content || ""` on a response content. -/
def contentOrEmpty : RespContent → RespContent
  | .null => .str ""
  | .str s => .str s
  | .chunks cs => .chunks cs

/-- Normalization of one requested call for the echoed assistant turn
(`id: tc.id || ""`, `type: tc.type || "function"`, arguments to string). -/
def normCall (tc : RespToolCall) : NormToolCall :=
  { id := jsOr tc.id "", type := jsOr tc.type "function",
    name := tc.name, arguments := tc.arguments.asString }

/-- Text of one typed content segment (non-text segments yield `""`). -/
def chunkText : Chunk → String
  | .text s => s
  | .other => ""

/-- Final-answer text extraction: a plain string is kept; a segment list is
filtered to its non-empty text pieces and concatenated; null and the empty
result substitute the `"No response"` sentinel. -/
def extractAssistantText (c : RespContent) : String :=
  let amsg :=
    match c with
    | .str s => s
    | .chunks cs => String.join ((cs.map chunkText).filter (fun s => s ≠ ""))
    | .null => "No response"
  if amsg = "" then "No response" else amsg

/-- Mutable state of one exchange: machine state, the outbound `messages`
array, and the persistent `conversationHistory`. -/
structure LoopState where
  sys : Sys
  messages : List ChatMsg
  history : List ConvMessage
deriving DecidableEq, Repr

/-- How the bounded iteration ended. -/
inductive LoopExit
  | noResponse
  | finalAnswer
  | ranOut
  | threw (e : JsError)
deriving DecidableEq, Repr

/-- Result of the bounded iteration: final state, the value of the iteration
counter (number of completion calls made), and the exit condition. -/
structure LoopOut where
  st : LoopState
  iteration : Nat
  exit : LoopExit
deriving DecidableEq, Repr

/-- A tool-role outbound turn keyed by a call id. -/
def toolTurn (content id : String) : ChatMsg :=
  { role := "tool", content := .str content, toolCallId := some id }

/-- The assistant outbound turn echoing a response's tool-call requests. -/
def assistantEcho (choice : RespMessage) (req : List RespToolCall) : ChatMsg :=
  { role := "assistant", content := contentOrEmpty choice.content,
    toolCalls := some (req.map normCall) }

/-- Append one outbound message (`messages.push`). -/
def pushMsg (st : LoopState) (m : ChatMsg) : LoopState :=
  { st with messages := st.messages ++ [m] }

/-- A plain assistant history turn. -/
def assistantTurn (content : String) : ConvMessage :=
  { role := .assistant, content := content }

/-- The per-response tool-call processing loop: calls lacking a truthy id or
naming an unknown capability are skipped with no turn; in plan mode a
mutating capability is refused with a synthetic tool turn; otherwise the
arguments are JSON-parsed (an unparseable payload throws past this loop) and
the capability is executed, appending one tool turn keyed by the call id. -/
def runToolCalls (env : Env) (plan : Bool) :
    List RespToolCall → LoopState → Except (JsError × LoopState) LoopState
  | [], st => .ok st
  | tc :: rest, st =>
    if idTruthy tc.id = false then runToolCalls env plan rest st
    else if isToolName tc.name = false then runToolCalls env plan rest st
    else if plan = true ∧ (tc.name = "edit_file" ∨ tc.name = "run_command") then
      runToolCalls env plan rest
        (pushMsg st (toolTurn (refusalContent tc.name) (jsOr tc.id "")))
    else
      match env.parse tc.arguments.asString with
      | none => .error (jsonParseError tc.arguments.asString, st)
      | some gargs =>
        match toolNameOf tc.name with
        | none => runToolCalls env plan rest st
        | some tn =>
          match executeTool env tn gargs st.sys with
          | .error e => .error (e, st)
          | .ok (sys', result) =>
            runToolCalls env plan rest
              (pushMsg { st with sys := sys' } (toolTurn result (jsOr tc.id "")))

/-- The bounded trampoline (`while (iteration < maxIterations)`), with
`fuel` the remaining iterations and `iter` the iteration counter. -/
def chatLoop (env : Env) (plan : Bool) : Nat → Nat → LoopState → LoopOut
  | 0, iter, st => ⟨st, iter, .ranOut⟩
  | fuel + 1, iter, st =>
    match env.complete (iter + 1) with
    | .throws e => ⟨st, iter + 1, .threw e⟩
    | .result choices =>
      match choices with
      | [] => ⟨st, iter + 1, .noResponse⟩
      | choice :: _ =>
        match choice.toolCalls with
        | some (tc :: tcs) =>
          match runToolCalls env plan (tc :: tcs)
              (pushMsg st (assistantEcho choice (tc :: tcs))) with
          | .error (e, st2) => ⟨st2, iter + 1, .threw e⟩
          | .ok st2 => chatLoop env plan fuel (iter + 1) st2
        | _ =>
          ⟨{ st with history := st.history ++
               [assistantTurn (extractAssistantText choice.content)] },
            iter + 1, .finalAnswer⟩

/-- Observable outcome of `processCommand`. -/
structure CmdOut where
  planMode : Bool
  history : List ConvMessage
  sys : Sys
  closed : Bool := false
  completionCalls : Nat := 0
  messages : List ChatMsg := []
  exit : Option LoopExit := none
  maxItersReported : Bool := false
deriving DecidableEq, Repr

/-- The initial outbound message sequence of one exchange: the (trimmed)
system prompt, augmented with the plan-mode rules when plan mode is
observed, followed by the normalized history. -/
def initialMessages (systemPrompt : String) (isPlan : Bool)
    (history : List ConvMessage) : List ChatMsg :=
  { role := "system",
    content := .str (strTrim systemPrompt ++ (if isPlan then planModeSuffix else "")) } ::
    history.map normalizeMsg

/-- A plain user turn. -/
def userTurn (content : String) : ConvMessage := { role := .user, content := content }

/-- Package the loop outcome of one exchange: on an uncaught throw the
most recently appended history entry is popped (rollback) and the
post-loop iteration check is skipped; otherwise the history stands and
`iteration >= maxIterations` decides the exhaustion report. -/
def mkCmdOut (isPlan : Bool) (out : LoopOut) : CmdOut :=
  match out.exit with
  | .threw _ =>
    { planMode := isPlan, history := out.st.history.dropLast, sys := out.st.sys,
      completionCalls := out.iteration, messages := out.st.messages,
      exit := some out.exit }
  | _ =>
    { planMode := isPlan, history := out.st.history, sys := out.st.sys,
      completionCalls := out.iteration, messages := out.st.messages,
      exit := some out.exit, maxItersReported := decide (10 ≤ out.iteration) }

/-- One chat exchange: append the user turn, run the bounded loop (cap 10),
and package the outcome. -/
def runChat (env : Env) (systemPrompt userMessage : String) (isPlan : Bool)
    (history0 : List ConvMessage) (sys0 : Sys) : CmdOut :=
  mkCmdOut isPlan (chatLoop env isPlan 10 0
    { sys := sys0,
      messages := initialMessages systemPrompt isPlan (history0 ++ [userTurn userMessage]),
      history := history0 ++ [userTurn userMessage] })

/-- The approval vocabulary check on the lower-cased trimmed input. -/
def isApprovalCommand (lower : String) : Bool :=
  lower == "/approve" || lower == "approve" || lower == "yes" ||
  lower == "yes, implement" || lower == "yes implement" ||
  strStartsWith lower "/approve"

/-- The command-interpreter phase on the trimmed input: session commands,
the `/plan` prefix (a bare `/plan` is terminal after the mode flip), the
approval vocabulary (substituting the canonical instruction when plan mode
is active, a no-op otherwise), and delegation of plain chat to the
exchange loop under the observed mode. -/
def processTrimmed (env : Env) (systemPrompt trimmed : String)
    (plan0 : Bool) (history0 : List ConvMessage) (sys0 : Sys) : CmdOut :=
  if trimmed = "exit" ∨ trimmed = "quit" then
    { planMode := plan0, history := history0, sys := sys0, closed := true }
  else if trimmed = "clear" then
    { planMode := false, history := [], sys := sys0 }
  else if trimmed = "help" then
    { planMode := plan0, history := history0, sys := sys0 }
  else if trimmed = "" then
    { planMode := plan0, history := history0, sys := sys0 }
  else if strStartsWith trimmed "/plan" = true ∧ strTrim (strDrop trimmed 5) = "" then
    { planMode := true, history := history0, sys := sys0 }
  else if isApprovalCommand (strToLower trimmed) = true then
    if (if strStartsWith trimmed "/plan" = true then true else plan0) = true then
      runChat env systemPrompt "Please implement the plan we discussed." false history0 sys0
    else
      { planMode := (if strStartsWith trimmed "/plan" = true then true else plan0),
        history := history0, sys := sys0 }
  else
    runChat env systemPrompt
      (if strStartsWith trimmed "/plan" = true then strTrim (strDrop trimmed 5) else trimmed)
      (if strStartsWith trimmed "/plan" = true then true else plan0) history0 sys0

/-- Embedding of `processCommand`: trim the input line and interpret it. -/
def processCommand (env : Env) (systemPrompt input : String)
    (plan0 : Bool) (history0 : List ConvMessage) (sys0 : Sys) : CmdOut :=
  processTrimmed env systemPrompt (strTrim input) plan0 history0 sys0

/-- A whole session: fold `processCommand` over a list of inputs, each with
its own environment, starting as the source does from an empty history and
implementation mode. -/
def processSeq (systemPrompt : String) :
    List (Env × String) → Bool × List ConvMessage × Sys → Bool × List ConvMessage × Sys
  | [], s => s
  | (env, input) :: rest, (plan, hist, sys) =>
    let out := processCommand env systemPrompt input plan hist sys
    processSeq systemPrompt rest (out.planMode, out.history, out.sys)

/-- A history entry is a plain user or assistant turn: no tool role, no
`toolCallId`, no `toolCalls`. -/
def goodTurn (m : ConvMessage) : Prop :=
  (m.role = .user ∨ m.role = .assistant) ∧ m.toolCallId = none ∧ m.toolCalls = none

/-- Number of tool-role entries of an outbound message list. -/
def countToolMsgs (ms : List ChatMsg) : Nat :=
  (ms.filter (fun m => m.role == "tool")).length

/-- The loop state carried by either outcome of `runToolCalls`. -/
def rtState : Except (JsError × LoopState) LoopState → LoopState
  | .ok st => st
  | .error (_, st) => st

/-- A requested call that cannot throw out of the per-call loop: whenever it
is neither skipped (falsy id, unknown name) nor refused by plan gating, its
argument payload parses. -/
def tcSafe (env : Env) (plan : Bool) (tc : RespToolCall) : Prop :=
  idTruthy tc.id = true → isToolName tc.name = true →
  ¬(plan = true ∧ (tc.name = "edit_file" ∨ tc.name = "run_command")) →
  (env.parse tc.arguments.asString).isSome = true

/-! ### Concrete instances used by witnesses and counterexamples -/

/-- An empty machine state. -/
def sysEmpty : Sys := { cwd := "/w", files := [], dirs := [], spawns := [] }

/-- A machine state holding one file whose content has exactly one "A". -/
def sysAB : Sys := { cwd := "/w", files := [("/w/f.txt", "xAy")], dirs := [], spawns := [] }

/-- A trivial environment: empty choice list, failing parser, silent shell. -/
def envNull : Env :=
  { complete := fun _ => .result [], parse := fun _ => none, exec := fun _ _ => .ok "" "" }

/-- An environment answering every completion call with plain final text. -/
def envFinal : Env :=
  { complete := fun _ => .result [{ content := .str "ok" }],
    parse := fun _ => none, exec := fun _ _ => .ok "" "" }

/-- An environment whose completion boundary throws on every call. -/
def envThrow : Env :=
  { complete := fun _ => .throws { message := "network error" },
    parse := fun _ => none, exec := fun _ _ => .ok "" "" }

/-- An environment whose shell collaborator fails with a silent error. -/
def envFailCmd : Env :=
  { complete := fun _ => .result [], parse := fun _ => none,
    exec := fun _ _ => .fail { message := "spawn failure" } }

/-- A single edit_file request, as fed to the per-call loop. -/
def tcEdit : RespToolCall :=
  { id := some "call_e", type := some "function", name := "edit_file",
    arguments := .str "edit args" }

/-- A single read_file request with parseable arguments. -/
def tcRead : RespToolCall :=
  { id := some "call_r", type := some "function", name := "read_file",
    arguments := .str "readfile" }

/-- A single read_file request with an unparseable argument payload. -/
def tcBadArgs : RespToolCall :=
  { id := some "call_1", type := some "function", name := "read_file",
    arguments := .str "not json" }

/-- Another unparseable read_file request with a distinct call id. -/
def tcBadArgs2 : RespToolCall :=
  { id := some "call_7", type := some "function", name := "read_file",
    arguments := .str "also not json" }

/-- A request naming an unknown capability. -/
def tcBogus : RespToolCall :=
  { id := some "call_9", type := some "function", name := "bogus_tool",
    arguments := .str "payload" }

/-- A response message requesting exactly the given calls. -/
def respCalls (tcs : List RespToolCall) : RespMessage :=
  { content := .null, toolCalls := some tcs }

/-- A response message carrying a final text answer. -/
def respText (s : String) : RespMessage :=
  { content := .str s }

/-- A read_file request repeated forever, with parseable arguments. -/
def envToolLoop : Env :=
  { complete := fun _ => .result [respCalls [tcRead]],
    parse := fun _ => some { file_path := some "a.txt" },
    exec := fun _ _ => .ok "" "" }

/-- A read_file request whose argument payload does not parse. -/
def envBadParse : Env :=
  { complete := fun _ => .result [respCalls [tcBadArgs]],
    parse := fun _ => none, exec := fun _ _ => .ok "" "" }

/-- Another unparseable-arguments request, with a distinct call id. -/
def envBadParse2 : Env :=
  { complete := fun _ => .result [respCalls [tcBadArgs2]],
    parse := fun _ => none, exec := fun _ _ => .ok "" "" }

/-- A first response requesting an unknown capability, then a final answer. -/
def envUnknownTool : Env :=
  { complete := fun k =>
      if k = 1 then .result [respCalls [tcBogus]] else .result [respText "done"],
    parse := fun _ => some {}, exec := fun _ _ => .ok "" "" }

/-- A first response requesting edit_file, then a final answer. -/
def envPlanBlock : Env :=
  { complete := fun k =>
      if k = 1 then .result [respCalls [tcEdit]] else .result [respText "plan ready"],
    parse := fun _ => some {}, exec := fun _ _ => .ok "" "" }

/-- An empty per-exchange loop state over the empty machine state. -/
def stEmpty : LoopState := { sys := sysEmpty, messages := [], history := [] }

/-! ### Lemmas about the capability executor -/

theorem jsTryS_isOk (sys : Sys) (h : JsError → String) (b : JsM (Sys × String)) :
    ∃ r, jsTryS sys h b = .ok r := by
  cases b with
  | ok r => exact ⟨r, rfl⟩
  | error e => exact ⟨(sys, h e), rfl⟩

theorem executeTool_isOk (env : Env) (tn : ToolName) (args : GenArgs) (sys : Sys) :
    ∃ r, executeTool env tn args sys = .ok r := by
  cases tn with
  | read_file => exact jsTryS_isOk _ _ _
  | list_directory => exact jsTryS_isOk _ _ _
  | edit_file => exact jsTryS_isOk _ _ _
  | run_command =>
    simp only [executeTool]
    split
    · exact ⟨_, rfl⟩
    · split
      · split <;> exact ⟨_, rfl⟩
      · split
        · split <;> exact ⟨_, rfl⟩
        · exact ⟨_, rfl⟩

theorem jsTryS_sys_eq {sys : Sys} {h : JsError → String} {b : JsM (Sys × String)}
    {sys' : Sys} {r : String}
    (hb : ∀ s2 r2, b = .ok (s2, r2) → s2 = sys)
    (hres : jsTryS sys h b = .ok (sys', r)) : sys' = sys := by
  unfold jsTryS at hres
  cases b with
  | ok p =>
    obtain ⟨s2, r2⟩ := p
    simp only [Except.ok.injEq, Prod.mk.injEq] at hres
    exact hres.1 ▸ hb s2 r2 rfl
  | error e =>
    simp only [Except.ok.injEq, Prod.mk.injEq] at hres
    exact hres.1.symm

theorem executeTool_read_sys {env : Env} {args : GenArgs} {sys sys' : Sys} {r : String}
    (h : executeTool env .read_file args sys = .ok (sys', r)) : sys' = sys := by
  simp only [executeTool] at h
  refine jsTryS_sys_eq ?_ h
  intro s2 r2 hb
  split at hb
  · simp at hb
  · split at hb
    · simp at hb
    · simp only [Except.ok.injEq, Prod.mk.injEq] at hb
      exact hb.1.symm

theorem executeTool_list_sys {env : Env} {args : GenArgs} {sys sys' : Sys} {r : String}
    (h : executeTool env .list_directory args sys = .ok (sys', r)) : sys' = sys := by
  simp only [executeTool] at h
  refine jsTryS_sys_eq ?_ h
  intro s2 r2 hb
  split at hb
  · simp at hb
  · simp only [Except.ok.injEq, Prod.mk.injEq] at hb
    exact hb.1.symm

theorem toolNameOf_of_isToolName {s : String} (h : isToolName s = true) :
    ∃ tn, toolNameOf s = some tn := by
  unfold isToolName at h
  simp only [Bool.or_eq_true, beq_iff_eq] at h
  unfold toolNameOf
  rcases h with ((h | h) | h) | h <;> subst h <;> exact ⟨_, rfl⟩

theorem toolNameOf_ro {s : String} {tn : ToolName}
    (h : toolNameOf s = some tn) (hne : ¬(s = "edit_file" ∨ s = "run_command")) :
    tn = .read_file ∨ tn = .list_directory := by
  unfold toolNameOf at h
  split at h
  · cases h; exact Or.inl rfl
  · split at h
    · cases h; exact Or.inr rfl
    · split at h
      · exact absurd (Or.inl ‹s = "edit_file"›) hne
      · split at h
        · exact absurd (Or.inr ‹s = "run_command"›) hne
        · cases h

/-! ### Lemmas about the per-call loop -/

theorem runToolCalls_history (env : Env) (plan : Bool) :
    ∀ (tcs : List RespToolCall) (st : LoopState),
      (rtState (runToolCalls env plan tcs st)).history = st.history
  | [], _ => rfl
  | tc :: rest, st => by
    simp only [runToolCalls]
    split
    · exact runToolCalls_history env plan rest st
    · split
      · exact runToolCalls_history env plan rest st
      · split
        · exact runToolCalls_history env plan rest _
        · split
          · rfl
          · split
            · exact runToolCalls_history env plan rest st
            · split
              · rfl
              · exact runToolCalls_history env plan rest _

theorem runToolCalls_plan_sys (env : Env) :
    ∀ (tcs : List RespToolCall) (st : LoopState),
      (rtState (runToolCalls env true tcs st)).sys = st.sys
  | [], _ => rfl
  | tc :: rest, st => by
    simp only [runToolCalls]
    split
    · exact runToolCalls_plan_sys env rest st
    · split
      · exact runToolCalls_plan_sys env rest st
      · split
        · exact runToolCalls_plan_sys env rest _
        · split
          · rfl
          · split
            · exact runToolCalls_plan_sys env rest st
            · split
              · rfl
              · rename_i hid hname hgate x2 gargs hparse x1 tn htn x0 sys2 result hexec
                have hro := toolNameOf_ro htn (fun hc => hgate ⟨trivial, hc⟩)
                have hsys : sys2 = st.sys := by
                  rcases hro with h1 | h1 <;> subst h1
                  · exact executeTool_read_sys hexec
                  · exact executeTool_list_sys hexec
                have hrec := runToolCalls_plan_sys env rest
                  { st with sys := sys2,
                            messages := st.messages ++
                              [{ role := "tool", content := .str result,
                                 toolCallId := some (jsOr tc.id "") }] }
                exact hrec.trans hsys

theorem runToolCalls_msgs (env : Env) (plan : Bool) :
    ∀ (tcs : List RespToolCall) (st : LoopState),
      ∃ d, (rtState (runToolCalls env plan tcs st)).messages = st.messages ++ d
  | [], st => ⟨[], (List.append_nil _).symm⟩
  | tc :: rest, st => by
    simp only [runToolCalls]
    split
    · exact runToolCalls_msgs env plan rest st
    · split
      · exact runToolCalls_msgs env plan rest st
      · split
        · obtain ⟨d, hd⟩ := runToolCalls_msgs env plan rest
            (pushMsg st (toolTurn (refusalContent tc.name) (jsOr tc.id "")))
          exact ⟨toolTurn (refusalContent tc.name) (jsOr tc.id "") :: d,
            by rw [hd]; simp [pushMsg]⟩
        · split
          · exact ⟨[], (List.append_nil _).symm⟩
          · split
            · exact runToolCalls_msgs env plan rest st
            · split
              · exact ⟨[], (List.append_nil _).symm⟩
              · rename_i hid hname hgate x2 gargs hparse x1 tn htn x0 sys2 result hexec
                obtain ⟨d, hd⟩ := runToolCalls_msgs env plan rest
                  (pushMsg { st with sys := sys2 } (toolTurn result (jsOr tc.id "")))
                exact ⟨toolTurn result (jsOr tc.id "") :: d, by rw [hd]; simp [pushMsg]⟩

theorem runToolCalls_refusals (env : Env) :
    ∀ (tcs : List RespToolCall) (st st' : LoopState),
      runToolCalls env true tcs st = .ok st' →
      ∃ d, st'.messages = st.messages ++ d ∧
        ∀ tc ∈ tcs, idTruthy tc.id = true →
          (tc.name = "edit_file" ∨ tc.name = "run_command") →
          toolTurn (refusalContent tc.name) (jsOr tc.id "") ∈ d
  | [], st, st', h => by
    cases h
    exact ⟨[], (List.append_nil _).symm, by intro tc htc; cases htc⟩
  | tc :: rest, st, st', h => by
    simp only [runToolCalls] at h
    split at h
    · rename_i hid
      obtain ⟨d, hd, hmem⟩ := runToolCalls_refusals env rest st st' h
      refine ⟨d, hd, ?_⟩
      intro tc' htc' hidt hmut
      rcases List.mem_cons.mp htc' with rfl | hm
      · rw [hid] at hidt; cases hidt
      · exact hmem tc' hm hidt hmut
    · split at h
      · rename_i hid hname
        obtain ⟨d, hd, hmem⟩ := runToolCalls_refusals env rest st st' h
        refine ⟨d, hd, ?_⟩
        intro tc' htc' hidt hmut
        rcases List.mem_cons.mp htc' with rfl | hm
        · rcases hmut with h1 | h1 <;> rw [h1] at hname <;> exact absurd hname (by decide)
        · exact hmem tc' hm hidt hmut
      · split at h
        · obtain ⟨d, hd, hmem⟩ := runToolCalls_refusals env rest _ st' h
          refine ⟨toolTurn (refusalContent tc.name) (jsOr tc.id "") :: d,
            by rw [hd]; simp [pushMsg], ?_⟩
          intro tc' htc' hidt hmut
          rcases List.mem_cons.mp htc' with rfl | hm
          · exact List.mem_cons_self _ _
          · exact List.mem_cons_of_mem _ (hmem tc' hm hidt hmut)
        · split at h
          · cases h
          · split at h
            · rename_i hid hname hgate x2 gargs hparse x1 htn
              obtain ⟨d, hd, hmem⟩ := runToolCalls_refusals env rest st st' h
              refine ⟨d, hd, ?_⟩
              intro tc' htc' hidt hmut
              rcases List.mem_cons.mp htc' with rfl | hm
              · rcases hmut with h1 | h1 <;> rw [h1] at htn <;> exact absurd htn (by decide)
              · exact hmem tc' hm hidt hmut
            · split at h
              · cases h
              · rename_i hid hname hgate x2 gargs hparse x1 tn htn x0 sys2 result hexec
                obtain ⟨d, hd, hmem⟩ := runToolCalls_refusals env rest _ st' h
                refine ⟨toolTurn result (jsOr tc.id "") :: d,
                  by rw [hd]; simp [pushMsg], ?_⟩
                intro tc' htc' hidt hmut
                rcases List.mem_cons.mp htc' with rfl | hm
                · exact absurd ⟨trivial, hmut⟩ hgate
                · exact List.mem_cons_of_mem _ (hmem tc' hm hidt hmut)

theorem runToolCalls_exact_turns (env : Env) (plan : Bool) :
    ∀ (tcs : List RespToolCall) (st st' : LoopState),
      runToolCalls env plan tcs st = .ok st' →
      (∀ tc ∈ tcs, idTruthy tc.id = true ∧ isToolName tc.name = true) →
      ∃ contents : List String,
        contents.length = tcs.length ∧
        st'.messages = st.messages ++
          (tcs.zip contents).map (fun p2 => toolTurn p2.2 (jsOr p2.1.id ""))
  | [], st, st', h, _ => by
    cases h
    exact ⟨[], rfl, by simp⟩
  | tc :: rest, st, st', h, hall => by
    have hhead := hall tc (List.mem_cons_self _ _)
    have htail : ∀ tc' ∈ rest, idTruthy tc'.id = true ∧ isToolName tc'.name = true :=
      fun tc' hm => hall tc' (List.mem_cons_of_mem _ hm)
    simp only [runToolCalls] at h
    split at h
    · rename_i hid; rw [hhead.1] at hid; cases hid
    · split at h
      · rename_i hid hname; rw [hhead.2] at hname; cases hname
      · split at h
        · obtain ⟨cs, hlen, hmsg⟩ := runToolCalls_exact_turns env plan rest _ st' h htail
          refine ⟨refusalContent tc.name :: cs, by simp [hlen], ?_⟩
          rw [hmsg]
          simp [List.zip_cons_cons, pushMsg, toolTurn]
        · split at h
          · cases h
          · split at h
            · rename_i hid hname hgate x2 gargs hparse x1 htn
              obtain ⟨tn, htn2⟩ := toolNameOf_of_isToolName hhead.2
              rw [htn2] at htn; cases htn
            · split at h
              · cases h
              · rename_i hid hname hgate x2 gargs hparse x1 tn htn x0 sys2 result hexec
                obtain ⟨cs, hlen, hmsg⟩ := runToolCalls_exact_turns env plan rest _ st' h htail
                refine ⟨result :: cs, by simp [hlen], ?_⟩
                rw [hmsg]
                simp [List.zip_cons_cons, pushMsg, toolTurn]

theorem runToolCalls_safe_ok (env : Env) (plan : Bool) :
    ∀ (tcs : List RespToolCall) (st : LoopState),
      (∀ tc ∈ tcs, tcSafe env plan tc) →
      ∃ st', runToolCalls env plan tcs st = .ok st'
  | [], st, _ => ⟨st, rfl⟩
  | tc :: rest, st, hall => by
    have hhead := hall tc (List.mem_cons_self _ _)
    have htail : ∀ tc' ∈ rest, tcSafe env plan tc' :=
      fun tc' hm => hall tc' (List.mem_cons_of_mem _ hm)
    simp only [runToolCalls]
    split
    · exact runToolCalls_safe_ok env plan rest st htail
    · split
      · exact runToolCalls_safe_ok env plan rest st htail
      · split
        · exact runToolCalls_safe_ok env plan rest _ htail
        · rename_i hid hname hgate
          simp only [Bool.not_eq_false] at hid hname
          have hsome := hhead hid hname hgate
          split
          · rename_i hparse; rw [hparse] at hsome; cases hsome
          · split
            · rename_i x2 gargs hparse htn
              obtain ⟨tn, htn2⟩ := toolNameOf_of_isToolName hname
              rw [htn2] at htn; cases htn
            · split
              · rename_i x2 gargs hparse x1 tn htn x0 e hexec
                obtain ⟨⟨sys2, result⟩, hex2⟩ := executeTool_isOk env tn gargs st.sys
                rw [hex2] at hexec; cases hexec
              · exact runToolCalls_safe_ok env plan rest _ htail

/-! ### Lemmas about the bounded trampoline -/

theorem chatLoop_plan_sys (env : Env) :
    ∀ (fuel iter : Nat) (st : LoopState),
      (chatLoop env true fuel iter st).st.sys = st.sys
  | 0, _, _ => rfl
  | fuel + 1, iter, st => by
    simp only [chatLoop]
    split
    · rfl
    · split
      · rfl
      · split
        · split
          · rename_i x2 choices choice tail hc x1 tc tcs htc x0 e st2 hrun
            have h1 := runToolCalls_plan_sys env (tc :: tcs)
              (pushMsg st (assistantEcho choice (tc :: tcs)))
            rw [hrun] at h1
            exact h1
          · rename_i x2 choices choice tail hc x1 tc tcs htc x0 st2 hrun
            have h1 := runToolCalls_plan_sys env (tc :: tcs)
              (pushMsg st (assistantEcho choice (tc :: tcs)))
            rw [hrun] at h1
            exact (chatLoop_plan_sys env fuel (iter + 1) st2).trans h1
        · rfl

theorem chatLoop_history (env : Env) (plan : Bool) :
    ∀ (fuel iter : Nat) (st : LoopState),
      ∃ extra, (chatLoop env plan fuel iter st).st.history = st.history ++ extra ∧
        ∀ m ∈ extra, m.role = .assistant ∧ m.toolCallId = none ∧ m.toolCalls = none
  | 0, _, st => ⟨[], by simp only [List.append_nil]; rfl, by intro m hm; cases hm⟩
  | fuel + 1, iter, st => by
    simp only [chatLoop]
    split
    · exact ⟨[], by simp only [List.append_nil], by intro m hm; cases hm⟩
    · split
      · exact ⟨[], by simp only [List.append_nil], by intro m hm; cases hm⟩
      · split
        · split
          · rename_i x2 choices choice tail hc x1 tc tcs htc x0 e st2 hrun
            have h1 := runToolCalls_history env plan (tc :: tcs)
              (pushMsg st (assistantEcho choice (tc :: tcs)))
            rw [hrun] at h1
            exact ⟨[], by rw [List.append_nil]; exact h1, by intro m hm; cases hm⟩
          · rename_i x2 choices choice tail hc x1 tc tcs htc x0 st2 hrun
            have h1 := runToolCalls_history env plan (tc :: tcs)
              (pushMsg st (assistantEcho choice (tc :: tcs)))
            rw [hrun] at h1
            have h2 : st2.history = st.history := h1
            obtain ⟨extra, hh, hgood⟩ := chatLoop_history env plan fuel (iter + 1) st2
            exact ⟨extra, by rw [hh, h2], hgood⟩
        · refine ⟨[assistantTurn _], rfl, ?_⟩
          intro m hm
          rw [List.mem_singleton] at hm
          subst hm
          exact ⟨rfl, rfl, rfl⟩

theorem chatLoop_threw_history (env : Env) (plan : Bool) :
    ∀ (fuel iter : Nat) (st : LoopState) (e : JsError),
      (chatLoop env plan fuel iter st).exit = .threw e →
      (chatLoop env plan fuel iter st).st.history = st.history
  | 0, _, _, _ => by intro _; rfl
  | fuel + 1, iter, st, e => by
    simp only [chatLoop]
    split
    · intro _; rfl
    · split
      · intro _; rfl
      · split
        · split
          · rename_i x2 choices choice tail hc x1 tc tcs htc x0 e2 st2 hrun
            intro _
            have h1 := runToolCalls_history env plan (tc :: tcs)
              (pushMsg st (assistantEcho choice (tc :: tcs)))
            rw [hrun] at h1
            exact h1
          · rename_i x2 choices choice tail hc x1 tc tcs htc x0 st2 hrun
            intro h
            have h1 := runToolCalls_history env plan (tc :: tcs)
              (pushMsg st (assistantEcho choice (tc :: tcs)))
            rw [hrun] at h1
            have h2 : st2.history = st.history := h1
            exact (chatLoop_threw_history env plan fuel (iter + 1) st2 e h).trans h2
        · intro h; cases h

theorem chatLoop_throws_of_pos (env : Env) (plan : Bool) (fuel iter : Nat)
    (st : LoopState) (e : JsError) (hf : 0 < fuel)
    (hc : env.complete (iter + 1) = .throws e) :
    chatLoop env plan fuel iter st = ⟨st, iter + 1, .threw e⟩ := by
  rcases fuel with _ | fuel
  · omega
  · simp only [chatLoop]
    rw [hc]

theorem chatLoop_parse_throw (env : Env) (plan : Bool) (fuel iter : Nat)
    (st : LoopState) (c : RespMessage) (rest : List RespMessage) (tc : RespToolCall)
    (hf : 0 < fuel)
    (hc : env.complete (iter + 1) = .result (c :: rest))
    (htc : c.toolCalls = some [tc])
    (hid : idTruthy tc.id = true) (hname : isToolName tc.name = true)
    (hgate : ¬(plan = true ∧ (tc.name = "edit_file" ∨ tc.name = "run_command")))
    (hparse : env.parse tc.arguments.asString = none) :
    chatLoop env plan fuel iter st =
      ⟨pushMsg st (assistantEcho c [tc]), iter + 1,
        .threw (jsonParseError tc.arguments.asString)⟩ := by
  have hrun : runToolCalls env plan [tc] (pushMsg st (assistantEcho c [tc])) =
      .error (jsonParseError tc.arguments.asString, pushMsg st (assistantEcho c [tc])) := by
    simp only [runToolCalls]
    rw [if_neg (by simp [hid]), if_neg (by simp [hname]), if_neg hgate, hparse]
  rcases fuel with _ | fuel
  · omega
  · simp only [chatLoop]
    rw [hc]
    dsimp only
    rw [htc]
    dsimp only
    rw [hrun]

theorem chatLoop_alwaysTools (env : Env) (plan : Bool)
    (H : ∀ k, ∃ c rest tcs, env.complete k = .result (c :: rest) ∧
          c.toolCalls = some tcs ∧ tcs ≠ [] ∧ ∀ tc ∈ tcs, tcSafe env plan tc) :
    ∀ (fuel iter : Nat) (st : LoopState), ∃ st',
      chatLoop env plan fuel iter st = ⟨st', iter + fuel, .ranOut⟩ ∧
      st'.history = st.history
  | 0, iter, st => ⟨st, rfl, rfl⟩
  | fuel + 1, iter, st => by
    obtain ⟨c, rest, tcs, hc, htc, hne, hsafe⟩ := H (iter + 1)
    rcases tcs with _ | ⟨tc, tcs'⟩
    · exact absurd rfl hne
    obtain ⟨st2, hrun⟩ := runToolCalls_safe_ok env plan (tc :: tcs')
        (pushMsg st (assistantEcho c (tc :: tcs'))) hsafe
    obtain ⟨st', hloop, hh⟩ := chatLoop_alwaysTools env plan H fuel (iter + 1) st2
    refine ⟨st', ?_, ?_⟩
    · simp only [chatLoop]
      rw [hc]
      dsimp only
      rw [htc]
      dsimp only
      rw [hrun]
      dsimp only
      rw [hloop]
      have harith : iter + 1 + fuel = iter + (fuel + 1) := by omega
      rw [harith]
    · have h1 := runToolCalls_history env plan (tc :: tcs')
        (pushMsg st (assistantEcho c (tc :: tcs')))
      rw [hrun] at h1
      exact hh.trans h1

/-! ### Lemmas about exchange packaging -/

theorem mkCmdOut_sys (p : Bool) (out : LoopOut) : (mkCmdOut p out).sys = out.st.sys := by
  unfold mkCmdOut; split <;> rfl

theorem mkCmdOut_planMode (p : Bool) (out : LoopOut) : (mkCmdOut p out).planMode = p := by
  unfold mkCmdOut; split <;> rfl

theorem mkCmdOut_calls (p : Bool) (out : LoopOut) :
    (mkCmdOut p out).completionCalls = out.iteration := by
  unfold mkCmdOut; split <;> rfl

theorem mkCmdOut_messages (p : Bool) (out : LoopOut) :
    (mkCmdOut p out).messages = out.st.messages := by
  unfold mkCmdOut; split <;> rfl

theorem mkCmdOut_exit (p : Bool) (out : LoopOut) :
    (mkCmdOut p out).exit = some out.exit := by
  unfold mkCmdOut; split
  · rename_i e heq; rw [heq]
  · rfl

theorem mkCmdOut_history_threw {p : Bool} {out : LoopOut} {e : JsError}
    (hx : out.exit = .threw e) :
    (mkCmdOut p out).history = out.st.history.dropLast := by
  unfold mkCmdOut; split
  · rfl
  · rename_i hno; exact absurd hx (hno e)

theorem mkCmdOut_history_of_ne {p : Bool} {out : LoopOut}
    (hx : ∀ e, out.exit ≠ .threw e) :
    (mkCmdOut p out).history = out.st.history := by
  unfold mkCmdOut; split
  · rename_i e2 heq; exact absurd heq (hx e2)
  · rfl

theorem good_of_mem_parts {h0 : List ConvMessage} {msg : String}
    {extra : List ConvMessage}
    (hg : ∀ m ∈ h0, goodTurn m)
    (hgood : ∀ m ∈ extra, m.role = .assistant ∧ m.toolCallId = none ∧ m.toolCalls = none)
    {m : ConvMessage} (hm : m ∈ (h0 ++ [userTurn msg]) ++ extra) : goodTurn m := by
  rcases List.mem_append.mp hm with hm1 | hm2
  · rcases List.mem_append.mp hm1 with hm3 | hm4
    · exact hg m hm3
    · rw [List.mem_singleton] at hm4; subst hm4; exact ⟨Or.inl rfl, rfl, rfl⟩
  · obtain ⟨h1, h2, h3⟩ := hgood m hm2
    exact ⟨Or.inr h1, h2, h3⟩

/-! ### Lemmas about one exchange -/

theorem runChat_sys_plan (env : Env) (sp msg : String)
    (h0 : List ConvMessage) (s0 : Sys) :
    (runChat env sp msg true h0 s0).sys = s0 := by
  unfold runChat
  rw [mkCmdOut_sys]
  exact chatLoop_plan_sys env 10 0 _

theorem runChat_threw_history (env : Env) (sp msg : String) (p : Bool)
    (h0 : List ConvMessage) (s0 : Sys) (e : JsError)
    (h : (runChat env sp msg p h0 s0).exit = some (.threw e)) :
    (runChat env sp msg p h0 s0).history = h0 := by
  unfold runChat at h ⊢
  rw [mkCmdOut_exit] at h
  have hx := Option.some.inj h
  rw [mkCmdOut_history_threw hx, chatLoop_threw_history env p 10 0 _ e hx]
  simp

theorem runChat_throws_first_facts (env : Env) (sp msg : String) (p : Bool)
    (h0 : List ConvMessage) (s0 : Sys) (e : JsError)
    (hc : env.complete 1 = .throws e) :
    (runChat env sp msg p h0 s0).exit = some (.threw e) ∧
    (runChat env sp msg p h0 s0).completionCalls = 1 := by
  unfold runChat
  rw [chatLoop_throws_of_pos env p 10 0 _ e (by norm_num) hc]
  exact ⟨by rw [mkCmdOut_exit], by rw [mkCmdOut_calls]⟩

theorem runChat_good (env : Env) (sp msg : String) (p : Bool)
    (h0 : List ConvMessage) (s0 : Sys)
    (hg : ∀ m ∈ h0, goodTurn m) :
    ∀ m ∈ (runChat env sp msg p h0 s0).history, goodTurn m := by
  unfold runChat
  obtain ⟨extra, hh, hgood⟩ := chatLoop_history env p 10 0
    { sys := s0, messages := initialMessages sp p (h0 ++ [userTurn msg]),
      history := h0 ++ [userTurn msg] }
  intro m hm
  unfold mkCmdOut at hm
  split at hm
  · rw [hh] at hm
    exact good_of_mem_parts hg hgood ((List.dropLast_sublist _).subset hm)
  · rw [hh] at hm
    exact good_of_mem_parts hg hgood hm

theorem runChat_nothrow_history (env : Env) (sp msg : String) (p : Bool)
    (h0 : List ConvMessage) (s0 : Sys)
    (hnt : ∀ e, (runChat env sp msg p h0 s0).exit ≠ some (.threw e)) :
    ∃ extra, (runChat env sp msg p h0 s0).history = h0 ++ userTurn msg :: extra ∧
      ∀ m ∈ extra, m.role = .assistant := by
  unfold runChat at hnt ⊢
  have hx : ∀ e, (chatLoop env p 10 0
      { sys := s0, messages := initialMessages sp p (h0 ++ [userTurn msg]),
        history := h0 ++ [userTurn msg] }).exit ≠ .threw e :=
    fun e he => hnt e (by rw [mkCmdOut_exit, he])
  rw [mkCmdOut_history_of_ne hx]
  obtain ⟨extra, hh, hgood⟩ := chatLoop_history env p 10 0
    { sys := s0, messages := initialMessages sp p (h0 ++ [userTurn msg]),
      history := h0 ++ [userTurn msg] }
  refine ⟨extra, ?_, fun m hm => (hgood m hm).1⟩
  rw [hh]
  simp

/-! ### Lemmas about the command interpreter -/

theorem strStartsWith_exists {t p : String} (h : strStartsWith t p = true) :
    ∃ r, t.data = p.data ++ r := by
  unfold strStartsWith at h
  obtain ⟨r, hr⟩ := List.isPrefixOf_iff_prefix.mp h
  exact ⟨r, hr.symm⟩

theorem approval_false_of_plan_data {l : String} {m : List Char}
    (hl : l.data = '/' :: 'p' :: 'l' :: 'a' :: 'n' :: m) :
    isApprovalCommand l = false := by
  cases hb : isApprovalCommand l
  · rfl
  · exfalso
    simp only [isApprovalCommand, Bool.or_eq_true, beq_iff_eq] at hb
    rcases hb with ((((hb | hb) | hb) | hb) | hb) | hb
    · rw [hb] at hl
      exact absurd (show (['/', 'a'] : List Char) = ['/', 'p'] from
        congrArg (List.take 2) hl) (by decide)
    · rw [hb] at hl
      exact absurd (show (['a', 'p'] : List Char) = ['/', 'p'] from
        congrArg (List.take 2) hl) (by decide)
    · rw [hb] at hl
      exact absurd (show (['y', 'e'] : List Char) = ['/', 'p'] from
        congrArg (List.take 2) hl) (by decide)
    · rw [hb] at hl
      exact absurd (show (['y', 'e'] : List Char) = ['/', 'p'] from
        congrArg (List.take 2) hl) (by decide)
    · rw [hb] at hl
      exact absurd (show (['y', 'e'] : List Char) = ['/', 'p'] from
        congrArg (List.take 2) hl) (by decide)
    · obtain ⟨r2, hr2⟩ := strStartsWith_exists hb
      rw [hl] at hr2
      exact absurd (show (['/', 'p'] : List Char) = ['/', 'a'] from
        congrArg (List.take 2) hr2) (by decide)

theorem plan_not_approval {t : String} (hp : strStartsWith t "/plan" = true) :
    isApprovalCommand (strToLower t) = false := by
  obtain ⟨r, hr⟩ := strStartsWith_exists hp
  refine approval_false_of_plan_data (m := r.map jsToLowerChar) ?_
  show t.data.map jsToLowerChar = _
  rw [hr, List.map_append]
  rfl

theorem approval_not_plan {t : String} (ha : isApprovalCommand (strToLower t) = true) :
    strStartsWith t "/plan" = false := by
  cases hp : strStartsWith t "/plan"
  · rfl
  · rw [plan_not_approval hp] at ha
    cases ha

theorem plan_prefixed_ne {t : String} (hp : strStartsWith t "/plan" = true) :
    t ≠ "exit" ∧ t ≠ "quit" ∧ t ≠ "clear" ∧ t ≠ "help" ∧ t ≠ "" := by
  refine ⟨?_, ?_, ?_, ?_, ?_⟩ <;> intro he <;> rw [he] at hp <;>
    exact absurd hp (by decide)

theorem approval_ne {t : String} (ha : isApprovalCommand (strToLower t) = true) :
    t ≠ "exit" ∧ t ≠ "quit" ∧ t ≠ "clear" ∧ t ≠ "help" ∧ t ≠ "" := by
  refine ⟨?_, ?_, ?_, ?_, ?_⟩ <;> intro he <;> rw [he] at ha <;>
    exact absurd ha (by decide)

theorem processTrimmed_plan_empty (env : Env) (sp t : String) (plan0 : Bool)
    (h0 : List ConvMessage) (s0 : Sys)
    (hp : strStartsWith t "/plan" = true)
    (hempty : strTrim (strDrop t 5) = "") :
    processTrimmed env sp t plan0 h0 s0 =
      { planMode := true, history := h0, sys := s0 } := by
  obtain ⟨h1, h2, h3, h4, h5⟩ := plan_prefixed_ne hp
  unfold processTrimmed
  rw [if_neg (not_or.mpr ⟨h1, h2⟩), if_neg h3, if_neg h4, if_neg h5,
      if_pos ⟨hp, hempty⟩]

theorem processTrimmed_plan_msg (env : Env) (sp t : String) (plan0 : Bool)
    (h0 : List ConvMessage) (s0 : Sys)
    (hp : strStartsWith t "/plan" = true)
    (hmsg : strTrim (strDrop t 5) ≠ "") :
    processTrimmed env sp t plan0 h0 s0 =
      runChat env sp (strTrim (strDrop t 5)) true h0 s0 := by
  obtain ⟨h1, h2, h3, h4, h5⟩ := plan_prefixed_ne hp
  unfold processTrimmed
  rw [if_neg (not_or.mpr ⟨h1, h2⟩), if_neg h3, if_neg h4, if_neg h5,
      if_neg (fun hand => hmsg hand.2),
      if_neg (by rw [plan_not_approval hp]; exact Bool.false_ne_true),
      if_pos hp, if_pos hp]

theorem processTrimmed_approval_plan (env : Env) (sp t : String)
    (h0 : List ConvMessage) (s0 : Sys)
    (ha : isApprovalCommand (strToLower t) = true) :
    processTrimmed env sp t true h0 s0 =
      runChat env sp "Please implement the plan we discussed." false h0 s0 := by
  obtain ⟨h1, h2, h3, h4, h5⟩ := approval_ne ha
  have hp := approval_not_plan ha
  unfold processTrimmed
  rw [if_neg (not_or.mpr ⟨h1, h2⟩), if_neg h3, if_neg h4, if_neg h5,
      if_neg (fun hand => by rw [hp] at hand; exact Bool.false_ne_true hand.1),
      if_pos ha, if_pos (by rw [ite_self])]

theorem processTrimmed_approval_noplan (env : Env) (sp t : String)
    (h0 : List ConvMessage) (s0 : Sys)
    (ha : isApprovalCommand (strToLower t) = true) :
    processTrimmed env sp t false h0 s0 =
      { planMode := false, history := h0, sys := s0 } := by
  obtain ⟨h1, h2, h3, h4, h5⟩ := approval_ne ha
  have hp := approval_not_plan ha
  unfold processTrimmed
  rw [if_neg (not_or.mpr ⟨h1, h2⟩), if_neg h3, if_neg h4, if_neg h5,
      if_neg (fun hand => by rw [hp] at hand; exact Bool.false_ne_true hand.1),
      if_pos ha, if_neg (by rw [hp]; simp), hp]
  simp

theorem mkCmdOut_report_of_ne {p : Bool} {out : LoopOut}
    (hx : ∀ e, out.exit ≠ .threw e) :
    (mkCmdOut p out).maxItersReported = decide (10 ≤ out.iteration) := by
  unfold mkCmdOut; split
  · rename_i e2 heq; exact absurd heq (hx e2)
  · rfl

theorem processTrimmed_good (env : Env) (sp t : String) (plan0 : Bool)
    (h0 : List ConvMessage) (s0 : Sys)
    (hg : ∀ m ∈ h0, goodTurn m) :
    ∀ m ∈ (processTrimmed env sp t plan0 h0 s0).history, goodTurn m := by
  unfold processTrimmed
  split
  · exact hg
  · split
    · intro m hm; simp at hm
    · split
      · exact hg
      · split
        · exact hg
        · split
          · exact hg
          · split
            · split
              · exact runChat_good env sp _ false h0 s0 hg
              · split
                · exact runChat_good env sp _ false h0 s0 hg
                · exact hg
            · exact runChat_good env sp _ _ h0 s0 hg

theorem processSeq_good (sp : String) :
    ∀ (steps : List (Env × String)) (acc : Bool × List ConvMessage × Sys),
      (∀ m ∈ acc.2.1, goodTurn m) →
      ∀ m ∈ (processSeq sp steps acc).2.1, goodTurn m
  | [], _, hg => hg
  | (env, input) :: rest, (plan, hist, sys), hg => by
    simp only [processSeq]
    exact processSeq_good sp rest _
      (processTrimmed_good env sp (strTrim input) plan hist sys hg)

end MC

open MC

/-! ### The claims -/

/-- Claim C1: while plan mode is active the mutating capabilities edit_file
and run_command are never executed — the advertised tool set excludes them,
a plan-mode exchange leaves the machine state (files, directories, spawned
processes) untouched for every environment, and every blocked invocation
that reaches the gate (truthy id, mutating name) gets a refusal tool-result
turn keyed by its call id appended to the outbound messages. -/
theorem claim_C1_plan_gating :
    (ToolName.edit_file ∉ availableTools true ∧
     ToolName.run_command ∉ availableTools true) ∧
    (∀ (env : Env) (sp msg : String) (h0 : List ConvMessage) (s0 : Sys),
      (runChat env sp msg true h0 s0).sys = s0) ∧
    (∀ (env : Env) (tcs : List RespToolCall) (st st' : LoopState),
      runToolCalls env true tcs st = .ok st' →
      ∃ d, st'.messages = st.messages ++ d ∧
        ∀ tc ∈ tcs, idTruthy tc.id = true →
          (tc.name = "edit_file" ∨ tc.name = "run_command") →
          toolTurn (refusalContent tc.name) (jsOr tc.id "") ∈ d) :=
  ⟨by decide, fun env sp msg h0 s0 => runChat_sys_plan env sp msg h0 s0,
   fun env tcs st st' h => runToolCalls_refusals env tcs st st' h⟩

theorem claim_C1_plan_gating_witness :
    (runChat envPlanBlock "sys" "do it" true [] sysEmpty).sys = sysEmpty ∧
    (∃ d, (pushMsg stEmpty (toolTurn (refusalContent "edit_file") "call_e")).messages =
        stEmpty.messages ++ d ∧
      ∀ tc ∈ [tcEdit], idTruthy tc.id = true →
        (tc.name = "edit_file" ∨ tc.name = "run_command") →
        toolTurn (refusalContent tc.name) (jsOr tc.id "") ∈ d) :=
  ⟨claim_C1_plan_gating.2.1 envPlanBlock "sys" "do it" [] sysEmpty,
   claim_C1_plan_gating.2.2 envPlanBlock [tcEdit] stEmpty
     (pushMsg stEmpty (toolTurn (refusalContent "edit_file") "call_e")) rfl⟩

/-- Claim C2 as frozen is false on the code: an assistant response carrying
one tool-call request that names an unknown capability is skipped, so zero
tool-role turns are appended even though N = 1 invocation was requested. -/
theorem claim_C2_counterexample :
    (runChat envUnknownTool "" "go" false [] sysEmpty).messages =
      [{ role := "system", content := .str "" },
       { role := "user", content := .str "go" },
       { role := "assistant", content := .str "",
         toolCalls := some [{ id := "call_9", type := "function",
                              name := "bogus_tool", arguments := "payload" }] }] ∧
    countToolMsgs (runChat envUnknownTool "" "go" false [] sysEmpty).messages = 0 :=
  ⟨rfl, rfl⟩

/-- Claim C2 (amended): when every request of the assistant response bears a
truthy id and a recognized capability name and the per-call loop completes
without throwing, exactly N tool-role turns are appended after the assistant
turn, in request order, the i-th keyed by the id of the i-th request. -/
theorem claim_C2_amended (env : Env) (plan : Bool) (tcs : List RespToolCall)
    (st st' : LoopState)
    (hok : runToolCalls env plan tcs st = .ok st')
    (hall : ∀ tc ∈ tcs, idTruthy tc.id = true ∧ isToolName tc.name = true) :
    ∃ contents : List String,
      contents.length = tcs.length ∧
      st'.messages = st.messages ++
        (tcs.zip contents).map (fun p2 => toolTurn p2.2 (jsOr p2.1.id "")) :=
  runToolCalls_exact_turns env plan tcs st st' hok hall

theorem claim_C2_amended_witness :
    ∃ contents : List String,
      contents.length = [tcRead].length ∧
      (pushMsg stEmpty (toolTurn
          "Error reading file: ENOENT: no such file or directory, open '/w/a.txt'"
          "call_r")).messages =
        stEmpty.messages ++
          ([tcRead].zip contents).map (fun p2 => toolTurn p2.2 (jsOr p2.1.id "")) :=
  claim_C2_amended envToolLoop false [tcRead] stEmpty
    (pushMsg stEmpty (toolTurn
      "Error reading file: ENOENT: no such file or directory, open '/w/a.txt'"
      "call_r")) rfl (by decide)

/-- Claim C3 as frozen is false on the code: a completion boundary that
always returns a tool-call request whose argument payload does not parse
terminates the exchange after one completion call with an uncaught throw,
and the user turn is rolled back — not ten iterations, and a rollback. -/
theorem claim_C3_counterexample :
    envBadParse.complete = (fun _ => CompletionStep.result [respCalls [tcBadArgs]]) ∧
    (runChat envBadParse "" "loop" false [] sysEmpty).completionCalls = 1 ∧
    (runChat envBadParse "" "loop" false [] sysEmpty).history = [] ∧
    (runChat envBadParse "" "loop" false [] sysEmpty).exit =
      some (.threw (jsonParseError "not json")) :=
  ⟨rfl, rfl, rfl, rfl⟩

/-- Claim C3 (amended): when the completion boundary always returns at least
one choice whose message carries a non-empty list of tool-call requests and
no request can throw out of the per-call loop (each is skipped, refused, or
has parseable arguments), the exchange makes exactly 10 completion calls,
exits reporting iteration exhaustion, and performs no rollback: the user
turn stays appended. -/
theorem claim_C3_amended (env : Env) (sp msg : String) (p : Bool)
    (h0 : List ConvMessage) (s0 : Sys)
    (H : ∀ k, ∃ c rest tcs, env.complete k = .result (c :: rest) ∧
          c.toolCalls = some tcs ∧ tcs ≠ [] ∧ ∀ tc ∈ tcs, tcSafe env p tc) :
    (runChat env sp msg p h0 s0).completionCalls = 10 ∧
    (runChat env sp msg p h0 s0).exit = some .ranOut ∧
    (runChat env sp msg p h0 s0).maxItersReported = true ∧
    (runChat env sp msg p h0 s0).history = h0 ++ [userTurn msg] := by
  obtain ⟨st', hl, hh⟩ := chatLoop_alwaysTools env p H 10 0
    { sys := s0, messages := initialMessages sp p (h0 ++ [userTurn msg]),
      history := h0 ++ [userTurn msg] }
  unfold runChat
  rw [hl]
  have hx : ∀ e, (⟨st', 0 + 10, .ranOut⟩ : LoopOut).exit ≠ .threw e := by
    intro e h; cases h
  refine ⟨by rw [mkCmdOut_calls], by rw [mkCmdOut_exit], ?_, ?_⟩
  · rw [mkCmdOut_report_of_ne hx]
    rfl
  · rw [mkCmdOut_history_of_ne hx]
    exact hh

theorem claim_C3_amended_witness :
    (runChat envToolLoop "" "go" false [] sysEmpty).completionCalls = 10 ∧
    (runChat envToolLoop "" "go" false [] sysEmpty).exit = some .ranOut ∧
    (runChat envToolLoop "" "go" false [] sysEmpty).maxItersReported = true ∧
    (runChat envToolLoop "" "go" false [] sysEmpty).history = [] ++ [userTurn "go"] :=
  claim_C3_amended envToolLoop "" "go" false [] sysEmpty
    (fun _ => ⟨respCalls [tcRead], [], [tcRead], rfl, rfl, by simp,
      fun _ _ _ _ _ => rfl⟩)

/-- Claim C4: whenever an exchange ends with an uncaught throw (in
particular when the completion boundary throws), the exception is caught
once by the per-exchange handler and the most recently appended user turn
is removed, so the resulting history equals the history from before the
user's message was submitted; a boundary that throws on the first call
ends the exchange after exactly one completion call. -/
theorem claim_C4_rollback (env : Env) (sp msg : String) (p : Bool)
    (h0 : List ConvMessage) (s0 : Sys) (e : JsError) :
    ((runChat env sp msg p h0 s0).exit = some (.threw e) →
      (runChat env sp msg p h0 s0).history = h0) ∧
    (env.complete 1 = .throws e →
      (runChat env sp msg p h0 s0).history = h0 ∧
      (runChat env sp msg p h0 s0).completionCalls = 1 ∧
      (runChat env sp msg p h0 s0).exit = some (.threw e)) := by
  refine ⟨fun h => runChat_threw_history env sp msg p h0 s0 e h, fun hc => ?_⟩
  obtain ⟨hex, hcalls⟩ := runChat_throws_first_facts env sp msg p h0 s0 e hc
  exact ⟨runChat_threw_history env sp msg p h0 s0 e hex, hcalls, hex⟩

theorem claim_C4_rollback_witness :
    (runChat envThrow "" "hi" false [userTurn "old"] sysEmpty).history =
      [userTurn "old"] ∧
    (runChat envThrow "" "hi" false [userTurn "old"] sysEmpty).completionCalls = 1 ∧
    (runChat envThrow "" "hi" false [userTurn "old"] sysEmpty).exit =
      some (.threw { message := "network error" }) :=
  (claim_C4_rollback envThrow "" "hi" false [userTurn "old"] sysEmpty
    { message := "network error" }).2 rfl

/-- Claim C5 (code bug): on a file containing exactly one occurrence of
"A", `edit_file(path, "A", "$$")` reports success but writes "x$y" instead
of "x$$y" — JavaScript `String.replace` expands `$`-replacement patterns in
the new string, so the replacement is not the literal new string the claim
(and the tool's own description) promises. -/
theorem claim_C5_dollar_bug :
    executeTool envNull .edit_file
        { file_path := some "f.txt", old_str := some "A", new_str := some "$$" } sysAB =
      .ok ({ cwd := "/w", files := [("/w/f.txt", "x$y"), ("/w/f.txt", "xAy")],
             dirs := [], spawns := [] },
           "File edited successfully: f.txt") ∧
    lookupStr ([("/w/f.txt", "x$y"), ("/w/f.txt", "xAy")] : List (String × String))
        "/w/f.txt" = some "x$y" :=
  ⟨rfl, rfl⟩

/-- Claim C6 as frozen is false on the code: a tool call whose JSON argument
payload fails to parse is not surfaced as a tool-result turn — no tool-role
entry is appended, the exchange aborts with the uncaught SyntaxError, and
the user turn is rolled back. -/
theorem claim_C6_counterexample :
    countToolMsgs (runChat envBadParse2 "" "hi" false [] sysEmpty).messages = 0 ∧
    (runChat envBadParse2 "" "hi" false [] sysEmpty).history = [] ∧
    (runChat envBadParse2 "" "hi" false [] sysEmpty).exit =
      some (.threw (jsonParseError "also not json")) :=
  ⟨rfl, rfl, rfl⟩

/-- Claim C6 (amended): the argument string of a dispatched call is parsed
before dispatch, but a parse failure is exchange-fatal rather than a tool
execution error: the exchange exits with the thrown SyntaxError, the user
turn is rolled back, and the outbound messages end with the assistant echo
— no tool-result turn is appended for the failing call. -/
theorem claim_C6_amended (env : Env) (sp msg : String) (p : Bool)
    (h0 : List ConvMessage) (s0 : Sys) (c : RespMessage) (rest : List RespMessage)
    (tc : RespToolCall)
    (hc : env.complete 1 = .result (c :: rest))
    (htc : c.toolCalls = some [tc])
    (hid : idTruthy tc.id = true) (hname : isToolName tc.name = true)
    (hgate : ¬(p = true ∧ (tc.name = "edit_file" ∨ tc.name = "run_command")))
    (hparse : env.parse tc.arguments.asString = none) :
    (runChat env sp msg p h0 s0).exit =
      some (.threw (jsonParseError tc.arguments.asString)) ∧
    (runChat env sp msg p h0 s0).history = h0 ∧
    (runChat env sp msg p h0 s0).messages =
      initialMessages sp p (h0 ++ [userTurn msg]) ++ [assistantEcho c [tc]] := by
  unfold runChat
  rw [chatLoop_parse_throw env p 10 0 _ c rest tc (by norm_num) hc htc hid hname
      hgate hparse]
  refine ⟨by rw [mkCmdOut_exit], ?_, ?_⟩
  · rw [mkCmdOut_history_threw rfl]
    simp [pushMsg, List.dropLast_concat]
  · rw [mkCmdOut_messages]
    simp [pushMsg]

theorem claim_C6_amended_witness :
    (runChat envBadParse "" "query" false [] sysEmpty).exit =
      some (.threw (jsonParseError "not json")) ∧
    (runChat envBadParse "" "query" false [] sysEmpty).history = [] ∧
    (runChat envBadParse "" "query" false [] sysEmpty).messages =
      initialMessages "" false ([] ++ [userTurn "query"]) ++
        [assistantEcho (respCalls [tcBadArgs]) [tcBadArgs]] :=
  claim_C6_amended envBadParse "" "query" false [] sysEmpty
    (respCalls [tcBadArgs]) [] tcBadArgs rfl rfl (by decide) (by decide)
    (by simp) rfl

/-- Claim C7: for every capability name and argument value, the executor
returns normally with a string — no fault escapes its boundary — and
concrete fault classes are converted to descriptive text: a missing file on
read_file yields the "Error reading file" text with the underlying ENOENT
message, and a silent shell failure on run_command yields the "Error
executing command" text (the spawn still being recorded). -/
theorem claim_C7_executor_total (env : Env) (tn : ToolName) (args : GenArgs)
    (sys : Sys) :
    (∃ out, executeTool env tn args sys = .ok out) ∧
    (∀ fp, tn = .read_file → args.file_path = some fp →
      lookupStr sys.files (resolvePath sys.cwd fp) = none →
      executeTool env tn args sys =
        .ok (sys, "Error reading file: " ++
          (enoentOpen (resolvePath sys.cwd fp)).message)) ∧
    (∀ cmd e, tn = .run_command → args.command = some cmd →
      env.exec cmd (workingDirOf sys args) = .fail e → e.stdout = "" → e.stderr = "" →
      executeTool env tn args sys =
        .ok ({ sys with spawns := sys.spawns ++ [cmd] },
             "Error executing command: " ++ e.message)) := by
  refine ⟨executeTool_isOk env tn args sys, ?_, ?_⟩
  · intro fp htn hfp hlook
    subst htn
    simp only [executeTool]
    rw [hfp]
    dsimp only
    unfold fsReadFile
    rw [hlook]
    rfl
  · intro cmd e htn hcmd hexec hso hse
    subst htn
    simp only [executeTool]
    rw [hcmd]
    dsimp only
    rw [hexec]
    dsimp only
    rw [if_neg (by simp [hso, hse])]

theorem claim_C7_executor_total_witness :
    (∃ out, executeTool envNull .read_file { file_path := some "nope.txt" } sysEmpty =
      .ok out) ∧
    executeTool envNull .read_file { file_path := some "nope.txt" } sysEmpty =
      .ok (sysEmpty, "Error reading file: " ++
        (enoentOpen (resolvePath sysEmpty.cwd "nope.txt")).message) ∧
    executeTool envFailCmd .run_command { command := some "make" } sysEmpty =
      .ok ({ sysEmpty with spawns := sysEmpty.spawns ++ ["make"] },
           "Error executing command: " ++
             ({ message := "spawn failure" } : JsError).message) :=
  ⟨(claim_C7_executor_total envNull .read_file { file_path := some "nope.txt" }
      sysEmpty).1,
   (claim_C7_executor_total envNull .read_file { file_path := some "nope.txt" }
      sysEmpty).2.1 "nope.txt" rfl rfl rfl,
   (claim_C7_executor_total envFailCmd .run_command { command := some "make" }
      sysEmpty).2.2 "make" { message := "spawn failure" } rfl rfl rfl rfl rfl⟩

/-- Claim C8: for every input line whose trimmed form starts with "/plan",
the resulting session mode is Plan; with no trailing message the command is
terminal (history unchanged, no completion call is even possible since no
exchange runs); with a trailing message the command equals one chat
exchange on exactly that trimmed message with plan mode observed, and if
that exchange does not throw, exactly one user turn carrying the message is
appended (followed only by assistant turns). -/
theorem claim_C8_plan_command (env : Env) (sp input : String) (plan0 : Bool)
    (h0 : List ConvMessage) (s0 : Sys)
    (hp : strStartsWith (strTrim input) "/plan" = true) :
    (processCommand env sp input plan0 h0 s0).planMode = true ∧
    (strTrim (strDrop (strTrim input) 5) = "" →
      processCommand env sp input plan0 h0 s0 =
        { planMode := true, history := h0, sys := s0 }) ∧
    (strTrim (strDrop (strTrim input) 5) ≠ "" →
      processCommand env sp input plan0 h0 s0 =
        runChat env sp (strTrim (strDrop (strTrim input) 5)) true h0 s0) ∧
    (strTrim (strDrop (strTrim input) 5) ≠ "" →
      (∀ e, (processCommand env sp input plan0 h0 s0).exit ≠ some (.threw e)) →
      ∃ extra, (processCommand env sp input plan0 h0 s0).history =
        h0 ++ userTurn (strTrim (strDrop (strTrim input) 5)) :: extra ∧
        ∀ m ∈ extra, m.role = .assistant) := by
  by_cases hmsg : strTrim (strDrop (strTrim input) 5) = ""
  · have heq := processTrimmed_plan_empty env sp (strTrim input) plan0 h0 s0 hp hmsg
    refine ⟨?_, fun _ => heq, fun hne => absurd hmsg hne, fun hne => absurd hmsg hne⟩
    rw [show processCommand env sp input plan0 h0 s0 = _ from heq]
  · have heq := processTrimmed_plan_msg env sp (strTrim input) plan0 h0 s0 hp hmsg
    refine ⟨?_, fun habs => absurd habs hmsg, fun _ => heq, fun _ hnt => ?_⟩
    · rw [show processCommand env sp input plan0 h0 s0 = _ from heq]
      unfold runChat
      rw [mkCmdOut_planMode]
    · rw [show processCommand env sp input plan0 h0 s0 = _ from heq] at hnt ⊢
      exact runChat_nothrow_history env sp _ true h0 s0 hnt

theorem claim_C8_plan_command_witness :
    (processCommand envFinal "" "/plan" false [] sysEmpty).planMode = true ∧
    processCommand envFinal "" "/plan" false [] sysEmpty =
      { planMode := true, history := [], sys := sysEmpty } ∧
    processCommand envFinal "" "/plan add tests" false [] sysEmpty =
      runChat envFinal "" (strTrim (strDrop (strTrim "/plan add tests") 5)) true []
        sysEmpty :=
  ⟨(claim_C8_plan_command envFinal "" "/plan" false [] sysEmpty (by decide)).1,
   (claim_C8_plan_command envFinal "" "/plan" false [] sysEmpty (by decide)).2.1
     (by decide),
   (claim_C8_plan_command envFinal "" "/plan add tests" false [] sysEmpty
     (by decide)).2.2.1 (by decide)⟩

/-- Claim C9: for every input matching the approval vocabulary, if plan
mode is active the mode becomes Implementation and the exchange runs on the
fixed canonical instruction; if plan mode is not active, no completion call
happens and the history is unchanged. -/
theorem claim_C9_approval (env : Env) (sp input : String)
    (h0 : List ConvMessage) (s0 : Sys)
    (ha : isApprovalCommand (strToLower (strTrim input)) = true) :
    processCommand env sp input true h0 s0 =
      runChat env sp "Please implement the plan we discussed." false h0 s0 ∧
    processCommand env sp input false h0 s0 =
      { planMode := false, history := h0, sys := s0 } ∧
    (processCommand env sp input false h0 s0).completionCalls = 0 := by
  refine ⟨processTrimmed_approval_plan env sp (strTrim input) h0 s0 ha,
          processTrimmed_approval_noplan env sp (strTrim input) h0 s0 ha, ?_⟩
  rw [show processCommand env sp input false h0 s0 = _ from
      processTrimmed_approval_noplan env sp (strTrim input) h0 s0 ha]

theorem claim_C9_approval_witness :
    processCommand envFinal "" "yes" true [] sysEmpty =
      runChat envFinal "" "Please implement the plan we discussed." false [] sysEmpty ∧
    processCommand envFinal "" "yes" false [] sysEmpty =
      { planMode := false, history := [], sys := sysEmpty } ∧
    (processCommand envFinal "" "yes" false [] sysEmpty).completionCalls = 0 :=
  claim_C9_approval envFinal "" "yes" [] sysEmpty (by decide)

/-- Claim C10: after any sequence of processed inputs starting from the
fresh session, every entry of the persistent conversation history is a
plain user or assistant turn — no tool-role turn, no toolCallId, no
toolCalls is ever retained there. -/
theorem claim_C10_history_roles (sp : String) (steps : List (Env × String))
    (s0 : Sys) :
    ∀ m ∈ (processSeq sp steps (false, [], s0)).2.1, goodTurn m :=
  processSeq_good sp steps (false, [], s0) (by intro m hm; cases hm)

theorem claim_C10_history_roles_witness : goodTurn (userTurn "hello") :=
  claim_C10_history_roles "" [(envFinal, "hello")] sysEmpty (userTurn "hello")
    (by decide)

